import Mathlib

/-!
# Verification of `beta/noise_classes.py` (RES4LYF noise generators)

Shallow embedding of the noise-generator module.  Scalars are exact
rationals `ℚ`.  The tensor library's irrational numeric primitives
(float `sqrt`, `pow`, `cos`, `sin`) are modelled as function parameters;
theorems that depend on their behaviour assume the defining property only
at the values actually used, and concrete instantiations discharge those
assumptions.  Randomness is modelled by oracle streams: a random draw is
an arbitrary function from draw position to value, so theorems quantify
over every possible sequence of draws.  Tensors appear either as flat
lists of scalars (row-major, the order `torch.randn` fills them) or as
functions from indices to scalars.
-/

namespace NoiseClasses

/-- `x.mean()` over all elements. -/
def listMean (l : List ℚ) : ℚ := l.sum / l.length

/-- `x.std() ** 2` over all elements: `torch.std` defaults to the unbiased
estimator, dividing by `n - 1`. -/
def listVarUnbiased (l : List ℚ) : ℚ :=
  (l.map (fun v => (v - listMean l) ^ 2)).sum / ((l.length : ℚ) - 1)

/-- Unbiased variance of batch item `i` of a flat row-major tensor whose
batch items have `itemLen` elements each. -/
def itemVariance (itemLen : ℕ) (x : List ℚ) (i : ℕ) : ℚ :=
  listVarUnbiased ((x.drop (i * itemLen)).take itemLen)

/-- `normalize(x) = (x - x.mean()) / x.std()` — the module-level helper,
inlined by the Gaussian, GaussianBackwards, StudentT and Wavelet
`__call__` return statements.  `sqrtQ` stands for the float square root
inside `x.std()`. -/
def normalize (sqrtQ : ℚ → ℚ) (x : List ℚ) : List ℚ :=
  x.map (fun v => (v - listMean x) / sqrtQ (listVarUnbiased x))

/-- `noise / noise.std()` — the return stage of the Fractal, HiresPyramid,
Pyramid, InterpolatedPyramid, Laplacian, Perlin (and Simplex) generators:
division by the whole-tensor empirical std, without mean subtraction. -/
def stdNormalize (sqrtQ : ℚ → ℚ) (x : List ℚ) : List ℚ :=
  x.map (fun v => v / sqrtQ (listVarUnbiased x))

/-- Result of a generator `__call__`: the produced field (flat, row-major)
and the updated `last_seed` counter. -/
structure CallOut where
  out : List ℚ
  lastSeed : ℤ

/-- `GaussianNoiseGenerator.__call__`: `update(mean, std)`, `last_seed += 1`,
draw `torch.randn(self.size)` (the oracle list `draws`), return
`(noise - noise.mean()) / noise.std()`. -/
def gaussianCall (sqrtQ : ℚ → ℚ) (draws : List ℚ) (lastSeed : ℤ) : CallOut :=
  ⟨normalize sqrtQ draws, lastSeed + 1⟩

/-- `GaussianNoiseGenerator.__call__` as invoked by `prepare_noise`'s indexed
path: the signature is `(self, *, mean=None, std=None, **kwargs)`, so the
`size`/`dtype`/`layout`/`device` keywords land in `**kwargs` and are
discarded; the body is exactly `gaussianCall` on the instance state. -/
def gaussianCallKwargs (sqrtQ : ℚ → ℚ) (draws : List ℚ) (lastSeed : ℤ)
    (_kwargs : List (String × ℕ)) : CallOut :=
  gaussianCall sqrtQ draws lastSeed

/-- `UniformNoiseGenerator.__call__`: `last_seed += 1`, draw `torch.rand`
(the oracle `draws`), return `scale * 2 * (noise - 0.5) + mean` with no
re-normalization. -/
def uniformCall (draws : List ℚ) (mean scale : ℚ) (lastSeed : ℤ) : CallOut :=
  ⟨draws.map (fun u => scale * 2 * (u - 1/2) + mean), lastSeed + 1⟩

/-- `min`/`max` on a list element with a default: `nthD d l n` is `l[n]` or
`d` when out of range. -/
def nthD {α : Type _} (d : α) : List α → ℕ → α
  | [], _ => d
  | a :: _, 0 => a
  | _ :: t, n + 1 => nthD d t n

def insertSorted (a : ℚ) : List ℚ → List ℚ
  | [] => [a]
  | b :: t => if a ≤ b then a :: b :: t else b :: insertSorted a t

/-- Ascending sort (the order `torch.quantile` works on). -/
def sortAsc (l : List ℚ) : List ℚ := l.foldr insertSorted []

/-- `torch.quantile(v, 0.75, dim=-1)` with the default linear
interpolation: value at position `0.75 * (n - 1)` of the ascending sort,
linearly interpolated between the two neighbouring order statistics. -/
def quantile75 (l : List ℚ) : ℚ :=
  let s := sortAsc l
  let n := s.length
  let pos : ℚ := (3 / 4) * ((n : ℚ) - 1)
  let i : ℕ := 3 * (n - 1) / 4
  let lo := nthD 0 s i
  let hi := nthD lo s (i + 1)
  lo + (pos - (i : ℚ)) * (hi - lo)

/-- `torch.clamp(v, lo, hi)`. -/
def clampQ (lo hi v : ℚ) : ℚ := min (max v lo) hi

/-- `torch.copysign(torch.pow(torch.abs(v), 0.5), v)`: square root of the
magnitude, carrying the original sign (`copysign` with second argument
`+0.0` gives the positive sign, matching the `¬ v < 0` branch). -/
def signedSqrt (sqrtQ : ℚ → ℚ) (v : ℚ) : ℚ :=
  if v < 0 then -sqrtQ |v| else sqrtQ |v|

/-- Result of `LaplacianNoiseGenerator.__call__`: the produced field, the
updated `last_seed` counter, the torch generator's `initial_seed()` after
the call, and the process-global RNG state after the call. -/
structure LapCallOut where
  out : List ℚ
  lastSeed : ℤ
  genInitSeed : ℤ
  globalRng : ℤ

/-- `LaplacianNoiseGenerator.__call__`.  `normalDraw` is the oracle for
`torch.randn(...)` from the primary generator; `seedState s` is the
process-global RNG state installed by `torch.manual_seed(s)`; `lapDraw st`
gives the `Laplace(loc, scale).rsample(size)` values drawn with the global
RNG in state `st`, plus the advanced state.  Body, in source order:
`update(loc, scale)`; `last_seed += 1`; `noise = randn(...) / 4.0`;
`rng_state = torch.random.get_rng_state()`;
`torch.manual_seed(generator.initial_seed())`; draw the Laplace sample;
`generator.manual_seed(initial_seed + 1)`;
`torch.random.set_rng_state(rng_state)`; `noise += laplacian_noise`;
return `noise / noise.std()`. -/
def laplacianCall (sqrtQ : ℚ → ℚ) (normalDraw : List ℚ) (seedState : ℤ → ℤ)
    (lapDraw : ℤ → List ℚ × ℤ) (lastSeed genInitSeed globalRng : ℤ) : LapCallOut :=
  let lastSeed1 := lastSeed + 1
  let noise := normalDraw.map (fun v => v / 4)
  let saved := globalRng
  let st1 := seedState genInitSeed
  let lap := (lapDraw st1).1
  let genInit1 := genInitSeed + 1
  let restored := saved
  let noise1 := List.zipWith (fun a b => a + b) noise lap
  ⟨stdNormalize sqrtQ noise1, lastSeed1, genInit1, restored⟩

/-- Result of `StudentTNoiseGenerator.__call__`; the tensor is modelled as
a batch list of flattened items, matching `flatten(start_dim=1)`. -/
structure STCallOut where
  out : List (List ℚ)
  lastSeed : ℤ
  genInitSeed : ℤ
  globalRng : ℤ

/-- `StudentTNoiseGenerator.__call__`.  Body, in source order:
`update(loc, scale, df)`; `last_seed += 1`; save the global RNG state;
`torch.manual_seed(generator.initial_seed())`; draw the Student-t sample
(`tDraw`, one list per batch item); `if not isinstance(self,
BrownianNoiseGenerator)` — a StudentTNoiseGenerator is never a
BrownianNoiseGenerator, so this always runs — `last_seed += 1` again;
per-item 75th-percentile of absolute values, clamp to `[-s, s]`;
sign-preserving square root; `generator.manual_seed(initial_seed + 1)`;
restore the global RNG state; return `(latent - mean) / std` over the
whole tensor. -/
def studentTCall (sqrtQ : ℚ → ℚ) (seedState : ℤ → ℤ)
    (tDraw : ℤ → List (List ℚ) × ℤ) (lastSeed genInitSeed globalRng : ℤ) :
    STCallOut :=
  let lastSeed1 := lastSeed + 1
  let saved := globalRng
  let st1 := seedState genInitSeed
  let noise := (tDraw st1).1
  let lastSeed2 := lastSeed1 + 1
  let clamped := noise.map (fun item =>
    let s := quantile75 (item.map (fun v => |v|))
    item.map (clampQ (-s) s))
  let latent := clamped.map (List.map (signedSqrt sqrtQ))
  let genInit1 := genInitSeed + 1
  let restored := saved
  let flat := latent.flatten
  let m := listMean flat
  let sd := sqrtQ (listVarUnbiased flat)
  ⟨latent.map (List.map (fun v => (v - m) / sd)), lastSeed2, genInit1, restored⟩

/-- `smooth_step(t) = t * t * (3.0 - 2.0 * t)` (PerlinNoiseGenerator). -/
def smoothStep (t : ℚ) : ℚ := t * t * (3 - 2 * t)

/-- `torch.lerp(a, b, w) = a + w * (b - a)`. -/
def lerpQ (a b w : ℚ) : ℚ := a + w * (b - a)

/-- Dot product of gradient `(cos θ, sin θ)` with an offset vector. -/
def dot2 (p q : ℚ × ℚ) : ℚ := p.1 * q.1 + p.2 * q.2

/-- One output pixel of `perlin_noise_tensor`: the pixel lies in grid cell
`(py / bh, px / bw)` at fractional offset `((i + 0.5)/b)` per axis
(`get_positions`); the four corner gradients come from the unfolded angle
grid (`unfold_grid` orders the 2×2 block row-major: top-left, top-right,
bottom-left, bottom-right); `row0`/`row1`/final follow the source's three
`lerp`s with `smooth_step` eased weights, offsets shifted by the corner
position in `(x, y)` coordinates. -/
def perlinPixel (cosQ sinQ : ℚ → ℚ) (angle : ℕ → ℕ → ℚ) (bh bw py px : ℕ) : ℚ :=
  let gy := py / bh
  let gx := px / bw
  let oy : ℚ := (((py % bh : ℕ) : ℚ) + 1 / 2) / (bh : ℚ)
  let ox : ℚ := (((px % bw : ℕ) : ℚ) + 1 / 2) / (bw : ℚ)
  let g := fun (dy dx : ℕ) =>
    (cosQ (angle (gy + dy) (gx + dx)), sinQ (angle (gy + dy) (gx + dx)))
  let row0 := lerpQ (dot2 (g 0 0) (ox, oy)) (dot2 (g 0 1) (ox - 1, oy)) (smoothStep ox)
  let row1 := lerpQ (dot2 (g 1 0) (ox, oy - 1)) (dot2 (g 1 1) (ox - 1, oy - 1))
    (smoothStep ox)
  lerpQ row0 row1 (smoothStep oy)

/-- Row-major fill of the `[batch_size, gh+1, gw+1]` angle tensor by
`torch.empty(...).uniform_(to=2π, generator=self.generator)`, reading the
generator's uniform stream `u` from position `o`. -/
def perlinAngle (u : ℕ → ℚ) (o gh gw ch : ℕ) : ℕ → ℕ → ℚ :=
  fun gy gx => u (o + ch * ((gh + 1) * (gw + 1)) + gy * (gw + 1) + gx)

/-- `perlin_noise(grid_shape, out_shape, batch_size)` at channel `ch` and
output pixel `(py, px)`; block size `bh = oh / gh`, `bw = ow / gw`. -/
def perlinNoisePixel (cosQ sinQ : ℚ → ℚ) (u : ℕ → ℚ)
    (o gh gw oh ow ch py px : ℕ) : ℚ :=
  perlinPixel cosQ sinQ (perlinAngle u o gh gw ch) (oh / gh) (ow / gw) py px

/-- Uniform draws consumed by one `perlin_noise((h, w), (h, w),
batch_size=c)` call: the `[c, h+1, w+1]` angle tensor. -/
def perlinDrawCount (c h w : ℕ) : ℕ := c * ((h + 1) * (w + 1))

/-- The Perlin component the 5-D `PerlinNoiseGenerator.__call__` adds to
time slice `tt`: two octaves (`for i in range(2)`), each a fresh
`perlin_noise((h, w), (h, w), batch_size=c)` call with its own block of
the advancing uniform stream — the fields are drawn inside the
`for tt in range(t)` loop, so slice `tt` consumes blocks `2·tt` and
`2·tt + 1`. -/
def perlinSliceAdded (cosQ sinQ : ℚ → ℚ) (u : ℕ → ℚ) (c h w tt ch py px : ℕ) : ℚ :=
  perlinNoisePixel cosQ sinQ u (2 * tt * perlinDrawCount c h w) h w h w ch py px
    + perlinNoisePixel cosQ sinQ u ((2 * tt + 1) * perlinDrawCount c h w) h w h w ch py px

/-- 5-D `PerlinNoiseGenerator.__call__` before the final
`noise / noise.std()`: the base Gaussian draw divided by 2 (`gauss`
indexed row-major over `(b, c, t, h, w)`) plus the per-slice Perlin
component, broadcast identically over the batch axis (`perlin_expanded`
has batch size 1). -/
def perlinCall5DPre (cosQ sinQ : ℚ → ℚ) (gauss u : ℕ → ℚ) (c t h w : ℕ)
    (bi ch tt py px : ℕ) : ℚ :=
  gauss (bi * (c * (t * (h * w))) + ch * (t * (h * w)) + tt * (h * w) + py * w + px) / 2
    + perlinSliceAdded cosQ sinQ u c h w tt ch py px

/-- Row-major flattening of a `(b, c, t, h, w)` function tensor. -/
def tensorToList5 (b c t h w : ℕ) (f : ℕ → ℕ → ℕ → ℕ → ℕ → ℚ) : List ℚ :=
  (List.range b).flatMap fun bi =>
    (List.range c).flatMap fun ch =>
      (List.range t).flatMap fun tt =>
        (List.range h).flatMap fun py =>
          (List.range w).map fun px => f bi ch tt py px

structure Perlin5DOut where
  out : ℕ → ℕ → ℕ → ℕ → ℕ → ℚ
  lastSeed : ℤ

/-- Full 5-D Perlin call: `last_seed += 1`, synthesis, then division by the
whole-tensor empirical std. -/
def perlinCall5D (cosQ sinQ sqrtQ : ℚ → ℚ) (gauss u : ℕ → ℚ) (b c t h w : ℕ)
    (lastSeed : ℤ) : Perlin5DOut :=
  let pre := perlinCall5DPre cosQ sinQ gauss u c t h w
  let sd := sqrtQ (listVarUnbiased (tensorToList5 b c t h w pre))
  ⟨fun bi ch tt py px => pre bi ch tt py px / sd, lastSeed + 1⟩

/-- `torch.nn.functional.interpolate(offset, size=(h, w), mode='nearest')`
of an `(hs, ws)` field: nearest-neighbour source index `⌊dst · src / dst⌋`
per axis. -/
def interpNearest (f : ℕ → ℕ → ℚ) (hs ws h w : ℕ) : ℕ → ℕ → ℚ :=
  fun y x => f (y * hs / h) (x * ws / w)

/-- The `for i in range(1, levels)` accumulation loop of
`CascadeBPyramidNoiseGenerator.__call__` with its `multipliers` list and
the early `break` once the halved size reaches 1.  `offs i` is the oracle
for the `torch.randn(b, c, h_i, w_i)` offset of level `i`.  The source
computes **both** halved dimensions from `epsilon.size(-2)` (the height),
which stays `h` throughout since each interpolation is back to full size. -/
def cascadeBLoop (offs : ℕ → ℕ → ℕ → ℕ → ℕ → ℚ) (h w : ℕ)
    (sizeRange : Option (ℕ × ℕ)) :
    ℕ → ℕ → (ℕ → ℕ → ℕ → ℕ → ℚ) → List ℚ → (ℕ → ℕ → ℕ → ℕ → ℚ) × List ℚ
  | _, 0, eps, ms => (eps, ms)
  | i, fuel + 1, eps, ms =>
    let m : ℚ := (3 / 4 : ℚ) ^ i
    let hi := h / 2 ^ i
    let wi := h / 2 ^ i
    let pass : Bool :=
      match sizeRange with
      | none => true
      | some (lo, hiBnd) => decide ((lo ≤ hi ∧ hi ≤ hiBnd) ∨ (lo ≤ wi ∧ wi ≤ hiBnd))
    let eps1 := if pass then
        (fun bi ch y x => eps bi ch y x + interpNearest (offs i bi ch) hi wi h w y x * m)
      else eps
    let ms1 := if pass then ms ++ [m] else ms
    if hi ≤ 1 ∨ wi ≤ 1 then (eps1, ms1)
    else cascadeBLoop offs h w sizeRange (i + 1) fuel eps1 ms1

structure CBOut where
  eps : ℕ → ℕ → ℕ → ℕ → ℚ
  lastSeed : ℤ

/-- `CascadeBPyramidNoiseGenerator.__call__`.  In source order:
`update(levels, mode)`; raise `NotImplementedError` on a 5-D size —
before `last_seed += 1` and before any noise is drawn; unpack
`b, c, h, w` (a `ValueError` for other ranks); the full-size Gaussian
draw `gauss`; the level loop; division by
`sum(m ** 2 for m in multipliers) ** 0.5` — a theoretical factor, not the
empirical std. -/
def cascadeBCall (gauss : ℕ → ℕ → ℕ → ℕ → ℚ) (offs : ℕ → ℕ → ℕ → ℕ → ℕ → ℚ)
    (sqrtQ : ℚ → ℚ) (size : List ℕ) (lastSeed : ℤ) (levels : ℕ)
    (sizeRange : Option (ℕ × ℕ)) : Except String CBOut :=
  if size.length = 5 then
    .error "NotImplementedError: CascadeBPyramidNoiseGenerator is not implemented for 5D tensors (eg. video)."
  else
    match size with
    | [_b, _c, h, w] =>
      let ls1 := lastSeed + 1
      let r := cascadeBLoop offs h w sizeRange 1 (levels - 1) gauss [1]
      let sd := sqrtQ ((r.2.map (fun m => m ^ 2)).sum)
      .ok ⟨fun bi ch y x => r.1 bi ch y x / sd, ls1⟩
    | _ => .error "ValueError: expected four dimensions to unpack"

/-- `torch.fft.fftfreq(n, 1/n)`: integer frequencies
`0, 1, …, ⌈n/2⌉ - 1, -⌊n/2⌋, …, -1` (exact in the rational model; in torch
the spacing `1/(d·n)` with `d = 1/n` agrees up to float rounding). -/
def fftfreqVal (n i : ℕ) : ℚ :=
  if i < (n + 1) / 2 then (i : ℚ) else (i : ℚ) - (n : ℚ)

/-- 4-D radial frequency magnitude
`sqrt(y_freq² + x_freq²).clamp(min=1e-10)` (FractalNoiseGenerator). -/
def freqGrid2 (sqrtQ : ℚ → ℚ) (h w y x : ℕ) : ℚ :=
  max (sqrtQ (fftfreqVal h y ^ 2 + fftfreqVal w x ^ 2)) (1 / 10 ^ 10)

/-- 5-D radial frequency magnitude over the `(t, h, w)` axes. -/
def freqGrid3 (sqrtQ : ℚ → ℚ) (t h w ty y x : ℕ) : ℚ :=
  max (sqrtQ (fftfreqVal t ty ^ 2 + fftfreqVal h y ^ 2 + fftfreqVal w x ^ 2))
    (1 / 10 ^ 10)

/-- 4-D spectral density: `self.k / torch.pow(freq, self.alpha * self.scale)`
followed by the assignment `spectral_density[0, 0] = 0`, which on an
`(h, w)` tensor zeroes exactly the zero-frequency bin.  `powQ` models the
float power function. -/
def spectralDensity2 (sqrtQ : ℚ → ℚ) (powQ : ℚ → ℚ → ℚ) (k alpha scale : ℚ)
    (h w y x : ℕ) : ℚ :=
  if y = 0 ∧ x = 0 then 0
  else k / powQ (freqGrid2 sqrtQ h w y x) (alpha * scale)

/-- 5-D spectral density: on a `(t, h, w)` tensor the assignment
`spectral_density[0, 0] = 0` zeroes the whole row `[0, 0, :]` — every
x-frequency bin at `(t_freq = 0, y_freq = 0)`, not just the single
zero-frequency bin. -/
def spectralDensity3 (sqrtQ : ℚ → ℚ) (powQ : ℚ → ℚ → ℚ) (k alpha scale : ℚ)
    (t h w ty y x : ℕ) : ℚ :=
  if ty = 0 ∧ y = 0 then 0
  else k / powQ (freqGrid3 sqrtQ t h w ty y x) (alpha * scale)

/-- `np.unique(noise_inds)`: the sorted distinct values; for a list of
naturals this is the ascending filter of `0 … max` by membership. -/
def npUnique (l : List ℕ) : List ℕ :=
  (List.range (l.foldr max 0 + 1)).filter (fun v => v ∈ l)

/-- Position of `v` in a list (first occurrence), as used by
`np.unique(..., return_inverse=True)`. -/
def listIndexOf (v : ℕ) : List ℕ → ℕ
  | [] => 0
  | a :: t => if a = v then 0 else listIndexOf v t + 1

/-- `np.unique(noise_inds, return_inverse=True)[1]`: for each original
entry, its index in the sorted unique list. -/
def npInverse (l : List ℕ) : List ℕ := l.map (fun v => listIndexOf v (npUnique l))

structure IndexedNoise (β : Type _) where
  fields : List β
  invocations : ℕ

/-- The indexed path of `prepare_noise`:
`unique_inds, inverse = np.unique(noise_inds, return_inverse=True)`, then
`for i in range(unique_inds[-1] + 1)` the generator is invoked — once per
loop iteration, so `gen i` is the field of the i-th invocation — and the
result is kept only `if i in unique_inds`; finally
`noises = [noises[i] for i in inverse]`.  `invocations` counts the
generator calls: the loop upper bound `max + 1`, not the number of unique
indices. -/
def prepareNoiseIndexed {β : Type _} (gen : ℕ → β) (inds : List ℕ) :
    IndexedNoise β :=
  let m := inds.foldr max 0
  let u := npUnique inds
  let noises := (List.range (m + 1)).filterMap fun i =>
    if i ∈ u then some (gen i) else none
  ⟨(npInverse inds).map (fun j => nthD (gen 0) noises j), m + 1⟩

/-- `torch.cat(noises, axis=0)` after reassembly: each field is a list of
batch items, and concatenation along the batch axis is `flatten`. -/
def prepareNoiseIndexedCat {γ : Type _} (gen : ℕ → List γ) (inds : List ℕ) :
    List γ :=
  (prepareNoiseIndexed gen inds).fields.flatten

/-- Python attribute store: a partial map from attribute names to values
(`getattr` on an unset name raises AttributeError, modelled by `none`). -/
def setattr {α : Type _} (st : String → Option α) (n : String) (v : α) :
    String → Option α :=
  fun m => if m = n then some v else st m

/-- `NoiseGenerator.update(**kwargs)`: for every keyword in order,
`setattr` if the value is not None, then append
`getattr(self, attribute_name)` to the returned tuple. -/
def updateAttrs {α : Type _} (st : String → Option α) :
    List (String × Option α) → (String → Option α) × List (Option α)
  | [] => (st, [])
  | (n, v) :: rest =>
    let st1 := match v with
      | some v1 => setattr st n v1
      | none => st
    let r := updateAttrs st1 rest
    (r.1, st1 n :: r.2)

structure TensorMeta where
  size : List ℕ
  dtype : ℕ
  layout : ℕ
  device : ℕ
deriving DecidableEq

structure GenInitState where
  size : List ℕ
  dtype : ℕ
  layout : ℕ
  device : ℕ
  seed : ℤ
  lastSeed : ℤ
  genInitSeed : ℤ
deriving DecidableEq

/-- `torch.zeros(size, dtype, layout, device)` as written in
`NoiseGenerator.__init__` for the `x is None` branch: torch's `zeros`
accepts `dtype`, `layout` and `device` only as keyword arguments, so the
three extra positional arguments (even when they are `None`) are rejected
with a `TypeError`; a `None` size is likewise rejected. -/
def torchZerosPositional (size : Option (List ℕ))
    (extraPositional : List (Option ℕ)) : Except String TensorMeta :=
  match size with
  | none => .error "TypeError: zeros(): argument size must be a tuple of ints"
  | some sz =>
    if extraPositional.isEmpty then .ok ⟨sz, 0, 0, 0⟩
    else .error "TypeError: zeros() received an invalid combination of arguments"

/-- `NoiseGenerator.__init__(x, size, dtype, layout, device, seed, …)`.
With a reference tensor `x`: inherit `size`/`dtype`/`layout`/`device` from
it, then apply each explicit non-None parameter as an override; store
`seed`, set `last_seed = seed`, and seed the torch generator with `seed`.
Without `x`: the source calls `torch.zeros(size, dtype, layout, device)`
with the three metadata parameters positional, which raises; were that
call to succeed, the metadata attributes are set only from non-None
parameters, and creating the torch generator reads `self.device`
(AttributeError when absent). -/
def noiseGeneratorInit (x : Option TensorMeta) (size : Option (List ℕ))
    (dtype layout device : Option ℕ) (seed : ℤ) : Except String GenInitState :=
  match x with
  | some xt =>
    let sz := match size with | some s => s | none => xt.size
    let dt := match dtype with | some d => d | none => xt.dtype
    let lt := match layout with | some l1 => l1 | none => xt.layout
    let dv := match device with | some d => d | none => xt.device
    .ok ⟨sz, dt, lt, dv, seed, seed, seed⟩
  | none =>
    match torchZerosPositional size [dtype, layout, device] with
    | .error e => .error e
    | .ok _ =>
      match size, dtype, layout, device with
      | some sz, some dt, some lt, some dv => .ok ⟨sz, dt, lt, dv, seed, seed, seed⟩
      | _, _, _, _ => .error "AttributeError: NoiseGenerator attribute not set"

/-- A concrete attribute store for exercising `update`: `alpha = 2`,
`k = 5`, nothing else configured. -/
def updateTestState : String → Option ℤ :=
  fun n => if n = "alpha" then some 2 else if n = "k" then some 5 else none

/-- `BrownianNoiseGenerator.__call__(self, *, sigma=None, sigma_next=None,
**kwargs)`: a one-line delegation to the external
`BrownianTreeNoiseSampler(self.x, sigma_min, sigma_max, seed, cpu)`
evaluated at `(sigma, sigma_next)` (`sampler` is that external
collaborator).  The body never touches `last_seed`: the counter is
returned unchanged. -/
def brownianCall (sampler : ℚ → ℚ → List ℚ) (sigma sigmaNext : ℚ)
    (lastSeed : ℤ) : CallOut :=
  ⟨sampler sigma sigmaNext, lastSeed⟩

/-- Result of `GaussianBackwardsNoiseGenerator.__call__`: the field, the
updated `last_seed`, and the torch generator's `initial_seed` after the
call (decremented — the backwards seek). -/
structure GBCallOut where
  out : List ℚ
  lastSeed : ℤ
  genInitSeed : ℤ

/-- `GaussianBackwardsNoiseGenerator.__call__`: `update(mean, std)`;
`last_seed += 1`; log; `generator.manual_seed(generator.initial_seed() - 1)`;
draw `torch.randn(self.size)` from the re-seeded generator (`draw s` is
the randn oracle for the generator freshly seeded with `s`); return
`(noise - noise.mean()) / noise.std()`. -/
def gaussianBackwardsCall (sqrtQ : ℚ → ℚ) (draw : ℤ → List ℚ)
    (lastSeed genInitSeed : ℤ) : GBCallOut :=
  ⟨normalize sqrtQ (draw (genInitSeed - 1)), lastSeed + 1, genInitSeed - 1⟩

/-- `FractalNoiseGenerator.__call__` on a 4-D size:
`update(alpha, k, scale)`; `last_seed += 1`; draw `torch.randn(self.size)`
(the flat oracle `draws`); `torch.fft.fftn` (the transcendental DFT is the
abstract parameter `fftn`, complex values as real/imaginary pairs indexed
by `(b, c, y, x)`); multiply the spectrum pointwise by the 4-D
`spectralDensity2`; invert and keep the real part (`ifftnRe`, the abstract
inverse DFT composed with `.real`, back to a flat row-major list); return
`noise / torch.std(noise)`. -/
def fractalCall4D (sqrtQ : ℚ → ℚ) (powQ : ℚ → ℚ → ℚ)
    (fftn : List ℚ → ℕ → ℕ → ℕ → ℕ → ℚ × ℚ)
    (ifftnRe : (ℕ → ℕ → ℕ → ℕ → ℚ × ℚ) → List ℚ)
    (k alpha scale : ℚ) (h w : ℕ) (draws : List ℚ) (lastSeed : ℤ) : CallOut :=
  let noiseFft := fftn draws
  let modified := fun bi ch y x =>
    ((noiseFft bi ch y x).1 * spectralDensity2 sqrtQ powQ k alpha scale h w y x,
     (noiseFft bi ch y x).2 * spectralDensity2 sqrtQ powQ k alpha scale h w y x)
  ⟨stdNormalize sqrtQ (ifftnRe modified), lastSeed + 1⟩

/-- `WaveletNoiseGenerator.__call__`: `update(wavelet)`; `last_seed += 1`;
draw `torch.randn(self.size)`, move to CPU, `pywt.wavedecn` then
`pywt.waverecn` with periodization (the external wavelet
decompose-reconstruct round trip is the parameter `waveRoundTrip`),
convert back to a device tensor, return `(noise - mean) / std`. -/
def waveletCall (sqrtQ : ℚ → ℚ) (waveRoundTrip : List ℚ → List ℚ)
    (draws : List ℚ) (lastSeed : ℤ) : CallOut :=
  ⟨normalize sqrtQ (waveRoundTrip draws), lastSeed + 1⟩

/-- `PyramidNoiseGenerator.__call__`: `update(discount, mode)`;
`last_seed += 1`; `x = torch.zeros(self.size)` (`n` elements flat); for
`i in range(5)` add
`interpolate(normal(0, 0.5**i, scaled size), orig size, mode) * discount**i`
— `levelField i` is the oracle for the interpolated level-`i` draw
(carrying the `0.5**i` per-level std and the mode-dependent resampling);
return `x / x.std()`. -/
def pyramidCall (sqrtQ : ℚ → ℚ) (levelField : ℕ → List ℚ) (discount : ℚ)
    (n : ℕ) (lastSeed : ℤ) : CallOut :=
  let x := (List.range 5).foldl
    (fun acc i => List.zipWith (fun a b => a + b) acc
      ((levelField i).map (fun v => v * discount ^ i)))
    (List.replicate n 0)
  ⟨stdNormalize sqrtQ x, lastSeed + 1⟩

/-- The `for i in range(4)` loop of `HiresPyramidNoiseGenerator.__call__`
on a 4-D size (`t = orig_t = 1`, so the `t >= orig_t * 15` disjunct is
false): each iteration redraws `r = rand * 2 + 2` (`rDraw i` models the
`torch.rand` value in `[0, 1)`), grows
`h, w = min(orig*15, int(h * r**i)), min(orig*15, int(w * r**i))`
(`int` = floor on these nonnegative values), adds
`upsample(randn(b, c, h, w)) * discount**i` (`upsampled i h w` is the
oracle for the upsampled fresh draw), and breaks once a dimension reaches
the 15x cap. -/
def hiresPyramidLoop (upsampled : ℕ → ℕ → ℕ → List ℚ) (discount : ℚ)
    (origH origW : ℕ) (rDraw : ℕ → ℚ) :
    ℕ → ℕ → ℕ → ℕ → List ℚ → List ℚ
  | _, _, _, 0, noise => noise
  | i, h, w, fuel + 1, noise =>
    let r := rDraw i * 2 + 2
    let h1 := min (origH * 15) ((h : ℚ) * r ^ i).floor.toNat
    let w1 := min (origW * 15) ((w : ℚ) * r ^ i).floor.toNat
    let noise1 := List.zipWith (fun a b => a + b) noise
      ((upsampled i h1 w1).map (fun v => v * discount ^ i))
    if origH * 15 ≤ h1 ∨ origW * 15 ≤ w1 then noise1
    else hiresPyramidLoop upsampled discount origH origW rDraw (i + 1) h1 w1 fuel noise1

/-- `HiresPyramidNoiseGenerator.__call__` (4-D): `update(discount, mode)`;
`last_seed += 1`; base field `(torch.rand(size) - 0.5) * 2 * 1.73`
(`baseDraws` is the uniform oracle; the literal 1.73 is `173/100`); the
four-iteration growth loop; return `noise / noise.std()`. -/
def hiresPyramidCall (sqrtQ : ℚ → ℚ) (baseDraws : List ℚ) (rDraw : ℕ → ℚ)
    (upsampled : ℕ → ℕ → ℕ → List ℚ) (discount : ℚ) (origH origW : ℕ)
    (lastSeed : ℤ) : CallOut :=
  let noise0 := baseDraws.map (fun u0 => (u0 - 1 / 2) * 2 * (173 / 100))
  let noise1 := hiresPyramidLoop upsampled discount origH origW rDraw 0 origH
    origW 4 noise0
  ⟨stdNormalize sqrtQ noise1, lastSeed + 1⟩

/-- The loop of `InterpolatedPyramidNoiseGenerator.__call__` (4-D): same
growth/accumulation as the hires loop, additionally appending
`discount**i` to the `multipliers` list every iteration (the break is
checked after the append). -/
def interpPyramidLoop (upsampled : ℕ → ℕ → ℕ → List ℚ) (discount : ℚ)
    (origH origW : ℕ) (rDraw : ℕ → ℚ) :
    ℕ → ℕ → ℕ → ℕ → List ℚ → List ℚ → List ℚ × List ℚ
  | _, _, _, 0, noise, ms => (noise, ms)
  | i, h, w, fuel + 1, noise, ms =>
    let r := rDraw i * 2 + 2
    let h1 := min (origH * 15) ((h : ℚ) * r ^ i).floor.toNat
    let w1 := min (origW * 15) ((w : ℚ) * r ^ i).floor.toNat
    let noise1 := List.zipWith (fun a b => a + b) noise
      ((upsampled i h1 w1).map (fun v => v * discount ^ i))
    let ms1 := ms ++ [discount ^ i]
    if origH * 15 ≤ h1 ∨ origW * 15 ≤ w1 then (noise1, ms1)
    else interpPyramidLoop upsampled discount origH origW rDraw (i + 1) h1 w1
      fuel noise1 ms1

/-- `InterpolatedPyramidNoiseGenerator.__call__` (4-D):
`update(discount, mode)`; `last_seed += 1`; uniform base `±1.73`; the
growth loop with `multipliers = [1]` initially; then
`noise / sum(m**2 for m in multipliers) ** 0.5` followed by
`noise / noise.std()`. -/
def interpolatedPyramidCall (sqrtQ : ℚ → ℚ) (baseDraws : List ℚ)
    (rDraw : ℕ → ℚ) (upsampled : ℕ → ℕ → ℕ → List ℚ) (discount : ℚ)
    (origH origW : ℕ) (lastSeed : ℤ) : CallOut :=
  let noise0 := baseDraws.map (fun u0 => (u0 - 1 / 2) * 2 * (173 / 100))
  let r := interpPyramidLoop upsampled discount origH origW rDraw 0 origH origW
    4 noise0 [1]
  let denom := sqrtQ ((r.2.map (fun m => m ^ 2)).sum)
  ⟨stdNormalize sqrtQ (r.1.map (fun v => v / denom)), lastSeed + 1⟩

/-- Result of `SimplexNoiseGenerator.__call__`: the field, the updated
`last_seed`, and the seed of the replacement OpenSimplex backend. -/
structure SimplexCallOut where
  out : List ℚ
  lastSeed : ℤ
  simplexSeed : ℤ

/-- `SimplexNoiseGenerator.__call__` (compiled only when the optional
OpenSimplex backend is enabled): `update(scale)`; `last_seed += 1`;
`noise3array` from the external backend (`noise3 s` is the array produced
by the backend seeded with `s`); replace the backend with one seeded
`s + 1`; reshape; return `noise / noise.std()`. -/
def simplexCall (sqrtQ : ℚ → ℚ) (noise3 : ℤ → List ℚ)
    (lastSeed simplexSeed : ℤ) : SimplexCallOut :=
  ⟨stdNormalize sqrtQ (noise3 simplexSeed), lastSeed + 1, simplexSeed + 1⟩

theorem sum_map_sub_const (l : List ℚ) (m : ℚ) :
    (l.map (fun v => v - m)).sum = l.sum - l.length * m := by
  induction l with
  | nil => simp
  | cons a t ih =>
      simp only [List.map_cons, List.sum_cons, ih, List.length_cons]
      push_cast
      ring

theorem sum_map_mul_const (l : List ℚ) (f : ℚ → ℚ) (r : ℚ) :
    (l.map (fun v => f v * r)).sum = (l.map f).sum * r := by
  induction l with
  | nil => simp
  | cons a t ih => simp [ih]; ring

theorem normalize_mean_zero (sqrtQ : ℚ → ℚ) (x : List ℚ)
    (hn : (x.length : ℚ) ≠ 0) :
    listMean (normalize sqrtQ x) = 0 := by
  have hsum : (normalize sqrtQ x).sum = 0 := by
    have h1 : (fun v => (v - listMean x) / sqrtQ (listVarUnbiased x))
        = fun v => (v - listMean x) * (sqrtQ (listVarUnbiased x))⁻¹ := by
      funext v; rw [div_eq_mul_inv]
    rw [normalize, h1, sum_map_mul_const, sum_map_sub_const, listMean]
    field_simp
  have hlen : (normalize sqrtQ x).length = x.length := by
    rw [normalize, List.length_map]
  rw [listMean, hlen, hsum, zero_div]

theorem normalize_var_one (sqrtQ : ℚ → ℚ) (x : List ℚ)
    (hn : (x.length : ℚ) ≠ 0)
    (hs : sqrtQ (listVarUnbiased x) ^ 2 = listVarUnbiased x)
    (hs0 : sqrtQ (listVarUnbiased x) ≠ 0) :
    listVarUnbiased (normalize sqrtQ x) = 1 := by
  set s := sqrtQ (listVarUnbiased x) with hsdef
  have hvar0 : listVarUnbiased x ≠ 0 := by
    intro h
    apply hs0
    have h2 : s ^ 2 = 0 := by rw [hs, h]
    exact (pow_eq_zero_iff (two_ne_zero)).mp h2
  have hden : ((x.length : ℚ) - 1) ≠ 0 := by
    intro h1
    apply hvar0
    rw [listVarUnbiased, h1, div_zero]
  have hmean := normalize_mean_zero sqrtQ x hn
  have hlen : (normalize sqrtQ x).length = x.length := by
    rw [normalize, List.length_map]
  rw [listVarUnbiased, hmean, hlen]
  have hmap : (normalize sqrtQ x).map (fun v => (v - 0) ^ 2)
      = x.map (fun v => (v - listMean x) ^ 2 * (s⁻¹) ^ 2) := by
    rw [normalize, List.map_map]
    refine List.map_congr_left ?_
    intro a _
    simp only [Function.comp]
    rw [div_eq_mul_inv, sub_zero, mul_pow]
  rw [hmap, sum_map_mul_const]
  have hvar : (x.map (fun v => (v - listMean x) ^ 2)).sum
      = listVarUnbiased x * ((x.length : ℚ) - 1) := by
    rw [listVarUnbiased]
    field_simp
  rw [hvar, ← hs, inv_pow]
  have h2 : s ^ 2 ≠ 0 := pow_ne_zero 2 hs0
  field_simp

theorem stdNormalize_var (sqrtQ : ℚ → ℚ) (x : List ℚ) :
    listVarUnbiased (stdNormalize sqrtQ x)
      = listVarUnbiased x / (sqrtQ (listVarUnbiased x)) ^ 2 := by
  set s := sqrtQ (listVarUnbiased x) with hsdef
  have hlen : (stdNormalize sqrtQ x).length = x.length := by
    rw [stdNormalize, List.length_map]
  have hmean : listMean (stdNormalize sqrtQ x) = listMean x * s⁻¹ := by
    rw [listMean, stdNormalize]
    have h1 : (fun v : ℚ => v / s) = fun v => v * s⁻¹ := by
      funext v; rw [div_eq_mul_inv]
    rw [h1]
    have h2 : (x.map fun v => v * s⁻¹) = x.map fun v => id v * s⁻¹ := rfl
    rw [h2, sum_map_mul_const, List.length_map, List.map_id, listMean]
    ring
  rw [listVarUnbiased, hmean, hlen]
  have hmap : (stdNormalize sqrtQ x).map (fun v => (v - listMean x * s⁻¹) ^ 2)
      = x.map (fun v => (v - listMean x) ^ 2 * (s⁻¹) ^ 2) := by
    rw [stdNormalize, List.map_map]
    refine List.map_congr_left ?_
    intro a _
    simp only [Function.comp]
    rw [div_eq_mul_inv]
    ring
  rw [hmap, sum_map_mul_const, inv_pow]
  rw [listVarUnbiased]
  ring

theorem var_test_vector : listVarUnbiased [0, 0, 0, 2] = 1 := by
  norm_num [listVarUnbiased, listMean]

theorem len_test_vector : ((([0, 0, 0, 2] : List ℚ).length : ℚ) ≠ 0) := by
  norm_num

theorem sqrt_test_vector :
    (fun _ : ℚ => (1 : ℚ)) (listVarUnbiased [0, 0, 0, 2]) ^ 2
      = listVarUnbiased ([0, 0, 0, 2] : List ℚ) := by
  rw [var_test_vector]; norm_num

theorem sqrt_test_vector_ne :
    (fun _ : ℚ => (1 : ℚ)) (listVarUnbiased [0, 0, 0, 2]) ≠ 0 := by
  norm_num

/-- C1 (amended): every generator whose return statement divides by the
whole-tensor empirical standard deviation — all of them except Uniform and
Simplex (documented exceptions) and Cascade-B (which divides by a
precomputed theoretical factor instead) — returns a tensor whose
*whole-tensor* standard deviation is exactly 1 in exact arithmetic (so 1.0
within floating-point tolerance); generators that also subtract the
empirical mean (Gaussian, GaussianBackwards, StudentT, Wavelet) return
zero whole-tensor mean.  The *per-batch-item* standard deviation equals
the item's raw std divided by the whole-tensor std and is **not** 1 in
general.  Stated here on the Gaussian `__call__` (representative of the
mean-subtracting family, `(noise - noise.mean()) / noise.std()`) and on
the shared `noise / noise.std()` return stage `stdNormalize` used by the
Fractal, Hires/plain/interpolated pyramid, Laplacian and Perlin
generators.  Std 1 is expressed as unbiased variance 1; the `sqrtQ`
hypotheses say the float square root is exact at the one value where the
code takes it and that the empirical std is nonzero. -/
theorem c1_global_std_normalization (sqrtQ : ℚ → ℚ) (x : List ℚ) (lastSeed : ℤ)
    (hn : (x.length : ℚ) ≠ 0)
    (hs : sqrtQ (listVarUnbiased x) ^ 2 = listVarUnbiased x)
    (hs0 : sqrtQ (listVarUnbiased x) ≠ 0) :
    listMean (gaussianCall sqrtQ x lastSeed).out = 0 ∧
    listVarUnbiased (gaussianCall sqrtQ x lastSeed).out = 1 ∧
    listVarUnbiased (stdNormalize sqrtQ x) = 1 := by
  refine ⟨normalize_mean_zero sqrtQ x hn, normalize_var_one sqrtQ x hn hs hs0, ?_⟩
  rw [stdNormalize_var]
  nth_rewrite 1 [← hs]
  exact div_self (pow_ne_zero 2 hs0)

/-- C1 (counterexample): the claim as stated — per-batch-item standard
deviation equal to 1.0 — is false.  For the Gaussian generator with draws
`[0, 0, 0, 2]` seen as a (2,1,1,2) batch, the whole-tensor variance of the
raw draw is exactly 1 (so the float `std` is exactly 1 and `sqrtQ = 1` is
the true float square root here), yet batch item 0 of the returned tensor
is `[-1/2, -1/2]`, whose standard deviation is 0, not 1. -/
theorem c1_counterexample :
    itemVariance 2 (gaussianCall (fun _ => 1) [0, 0, 0, 2] 0).out 0 = 0 ∧
    (0 : ℚ) ≠ 1 := by
  constructor
  · norm_num [itemVariance, gaussianCall, normalize, listVarUnbiased, listMean]
  · norm_num

theorem c1_witness :
    ((([0, 0, 0, 2] : List ℚ).length : ℚ) ≠ 0) ∧
    ((fun _ : ℚ => (1 : ℚ)) (listVarUnbiased [0, 0, 0, 2]) ^ 2
      = listVarUnbiased ([0, 0, 0, 2] : List ℚ)) ∧
    listMean (gaussianCall (fun _ => 1) [0, 0, 0, 2] 0).out = 0 ∧
    listVarUnbiased (gaussianCall (fun _ => 1) [0, 0, 0, 2] 0).out = 1 ∧
    listVarUnbiased (stdNormalize (fun _ => 1) [0, 0, 0, 2]) = 1 :=
  ⟨len_test_vector, sqrt_test_vector,
    c1_global_std_normalization (fun _ => 1) [0, 0, 0, 2] 0
      len_test_vector sqrt_test_vector sqrt_test_vector_ne⟩

/-- C5: for every Laplace-generator (and Student-t-generator) call, the
secondary sampling runs under a separately scoped deterministic RNG state
seeded from the generator's `initial_seed()` (`seedState genInitSeed`);
the process-global RNG state is saved before and restored after the
operation, so the global state observable after the call equals the state
before it; and the primary generator's seed is advanced by exactly one
(`generator.manual_seed(initial_seed + 1)`).  The output equations show
the secondary sample is exactly the draw taken in state
`seedState genInitSeed`, and that the output does not depend on the
incoming global RNG state at all. -/
theorem c5_rng_scoping (sqrtQ : ℚ → ℚ) (normalDraw : List ℚ) (seedState : ℤ → ℤ)
    (lapDraw : ℤ → List ℚ × ℤ) (tDraw : ℤ → List (List ℚ) × ℤ)
    (lastSeed genInitSeed globalRng globalRng' : ℤ) :
    (laplacianCall sqrtQ normalDraw seedState lapDraw lastSeed genInitSeed
        globalRng).globalRng = globalRng ∧
    (laplacianCall sqrtQ normalDraw seedState lapDraw lastSeed genInitSeed
        globalRng).genInitSeed = genInitSeed + 1 ∧
    (laplacianCall sqrtQ normalDraw seedState lapDraw lastSeed genInitSeed
        globalRng).out
      = stdNormalize sqrtQ (List.zipWith (fun a b => a + b)
          (normalDraw.map (fun v => v / 4)) (lapDraw (seedState genInitSeed)).1) ∧
    (laplacianCall sqrtQ normalDraw seedState lapDraw lastSeed genInitSeed
        globalRng).out
      = (laplacianCall sqrtQ normalDraw seedState lapDraw lastSeed genInitSeed
        globalRng').out ∧
    (studentTCall sqrtQ seedState tDraw lastSeed genInitSeed globalRng).globalRng
      = globalRng ∧
    (studentTCall sqrtQ seedState tDraw lastSeed genInitSeed globalRng).genInitSeed
      = genInitSeed + 1 ∧
    (studentTCall sqrtQ seedState tDraw lastSeed genInitSeed globalRng).out
      = (studentTCall sqrtQ seedState tDraw lastSeed genInitSeed globalRng').out :=
  ⟨rfl, rfl, rfl, rfl, rfl, rfl, rfl⟩

/-- C3 (amended): for every concrete generator, each call increments the
invocation counter `last_seed` by exactly 1 — including Laplace, Fractal,
GaussianBackwards, Wavelet, Uniform, Simplex, Perlin, Cascade-B (4-D) and
the plain/hires/interpolated pyramids — with exactly two exceptions:
Student-t increments by exactly 2 (`last_seed += 1` at entry and once more
in the always-taken `not isinstance(self, BrownianNoiseGenerator)` block),
and Brownian increments by 0 (its one-line `__call__` delegates to the
external Brownian-tree sampler and never touches the counter).  Laplace
advances its torch generator's `initial_seed` by an extra step, but its
`last_seed` counter by exactly 1. -/
theorem c3_last_seed_increments (sqrtQ cosQ sinQ : ℚ → ℚ) (powQ : ℚ → ℚ → ℚ)
    (draws : List ℚ) (mean scale sigma sigmaNext kF alphaF scF discount : ℚ)
    (normalDraw baseDraws : List ℚ) (seedState : ℤ → ℤ)
    (lapDraw : ℤ → List ℚ × ℤ) (tDraw : ℤ → List (List ℚ) × ℤ)
    (sampler : ℚ → ℚ → List ℚ) (drawSeeded : ℤ → List ℚ)
    (fftn : List ℚ → ℕ → ℕ → ℕ → ℕ → ℚ × ℚ)
    (ifftnRe : (ℕ → ℕ → ℕ → ℕ → ℚ × ℚ) → List ℚ)
    (waveRoundTrip : List ℚ → List ℚ) (levelField : ℕ → List ℚ)
    (rDraw : ℕ → ℚ) (upsampled : ℕ → ℕ → ℕ → List ℚ) (noise3 : ℤ → List ℚ)
    (gauss u : ℕ → ℚ) (gauss4 : ℕ → ℕ → ℕ → ℕ → ℚ)
    (offs : ℕ → ℕ → ℕ → ℕ → ℕ → ℚ) (b c t h w n oh ow levels : ℕ)
    (sizeRange : Option (ℕ × ℕ)) (kw : List (String × ℕ))
    (lastSeed genInitSeed globalRng simplexSeed : ℤ) :
    (gaussianCall sqrtQ draws lastSeed).lastSeed = lastSeed + 1 ∧
    (gaussianCallKwargs sqrtQ draws lastSeed kw).lastSeed = lastSeed + 1 ∧
    (uniformCall draws mean scale lastSeed).lastSeed = lastSeed + 1 ∧
    (laplacianCall sqrtQ normalDraw seedState lapDraw lastSeed genInitSeed
        globalRng).lastSeed = lastSeed + 1 ∧
    (studentTCall sqrtQ seedState tDraw lastSeed genInitSeed globalRng).lastSeed
      = lastSeed + 2 ∧
    (perlinCall5D cosQ sinQ sqrtQ gauss u b c t h w lastSeed).lastSeed
      = lastSeed + 1 ∧
    (cascadeBCall gauss4 offs sqrtQ [b, c, h, w] lastSeed levels
        sizeRange).toOption.map (fun r => r.lastSeed) = some (lastSeed + 1) ∧
    (brownianCall sampler sigma sigmaNext lastSeed).lastSeed = lastSeed ∧
    (gaussianBackwardsCall sqrtQ drawSeeded lastSeed genInitSeed).lastSeed
      = lastSeed + 1 ∧
    (fractalCall4D sqrtQ powQ fftn ifftnRe kF alphaF scF h w draws
        lastSeed).lastSeed = lastSeed + 1 ∧
    (waveletCall sqrtQ waveRoundTrip draws lastSeed).lastSeed = lastSeed + 1 ∧
    (pyramidCall sqrtQ levelField discount n lastSeed).lastSeed
      = lastSeed + 1 ∧
    (hiresPyramidCall sqrtQ baseDraws rDraw upsampled discount oh ow
        lastSeed).lastSeed = lastSeed + 1 ∧
    (interpolatedPyramidCall sqrtQ baseDraws rDraw upsampled discount oh ow
        lastSeed).lastSeed = lastSeed + 1 ∧
    (simplexCall sqrtQ noise3 lastSeed simplexSeed).lastSeed
      = lastSeed + 1 := by
  refine ⟨rfl, rfl, rfl, rfl, ?_, rfl, rfl, rfl, rfl, rfl, rfl, rfl, rfl, rfl,
    rfl⟩
  show lastSeed + 1 + 1 = lastSeed + 2
  omega

/-- C3 (counterexample): the claim states that the Laplace generator's
invocation counter increments by exactly 2 per call; in the code only
Student-t does.  A concrete Laplace call starting at `last_seed = 0`
leaves `last_seed = 1`, not 2. -/
theorem c3_counterexample :
    (laplacianCall (fun _ => 1) [] (fun s => s) (fun s => ([], s)) 0 42
        7).lastSeed = 1 ∧
    (1 : ℤ) ≠ 2 := by
  exact ⟨rfl, by decide⟩

/-- C9: invoking Cascade-B on a 5-D (spatiotemporal) size fails with
`NotImplementedError` (the "Unsupported" condition), raised synchronously
before any noise is drawn: the error value is identical for every noise
oracle and every `sqrt` primitive, and `last_seed` is not advanced.  On
4-D sizes the call does not raise for this reason. -/
theorem c9_cascade_rank_check (gauss gauss' : ℕ → ℕ → ℕ → ℕ → ℚ)
    (offs offs' : ℕ → ℕ → ℕ → ℕ → ℕ → ℚ) (sqrtQ sqrtQ' : ℚ → ℚ)
    (b c t h w levels : ℕ) (sizeRange : Option (ℕ × ℕ)) (lastSeed : ℤ) :
    cascadeBCall gauss offs sqrtQ [b, c, t, h, w] lastSeed levels sizeRange
      = .error "NotImplementedError: CascadeBPyramidNoiseGenerator is not implemented for 5D tensors (eg. video)." ∧
    cascadeBCall gauss offs sqrtQ [b, c, t, h, w] lastSeed levels sizeRange
      = cascadeBCall gauss' offs' sqrtQ' [b, c, t, h, w] lastSeed levels sizeRange ∧
    (cascadeBCall gauss offs sqrtQ [b, c, h, w] lastSeed levels
        sizeRange).isOk = true :=
  ⟨rfl, rfl, rfl⟩

/-- C7: construction from a reference tensor succeeds and explicit values
always override inherited ones; but construction with no reference tensor
from explicit size/dtype/layout/device values fails — the source calls
`torch.zeros(size, dtype, layout, device)` with the three keyword-only
metadata arguments in positional form, which torch rejects with a
TypeError — contradicting the documented contract (code bug; claim
evaluated at the failing input in the last conjunct). -/
theorem c7_constructor (xt : TensorMeta) (sz : List ℕ) (dt lt dv : ℕ) (s : ℤ) :
    noiseGeneratorInit (some xt) (some sz) (some dt) (some lt) (some dv) s
      = .ok ⟨sz, dt, lt, dv, s, s, s⟩ ∧
    noiseGeneratorInit (some xt) none none none none s
      = .ok ⟨xt.size, xt.dtype, xt.layout, xt.device, s, s, s⟩ ∧
    (noiseGeneratorInit none (some sz) (some dt) (some lt) (some dv) s).isOk
      = false ∧
    noiseGeneratorInit none (some [1, 4, 8, 8]) (some 1) (some 0) (some 0) 42
      = .error "TypeError: zeros() received an invalid combination of arguments" :=
  ⟨rfl, rfl, rfl, rfl⟩

/-- C4 (amended): for every fractal-generator call the spectral density is
`k / freq ** (alpha * scale)` with `freq` the radial Euclidean frequency
magnitude floored at the positive epsilon `1e-10` — so the divisor is
nonzero whenever the float `pow` is positive on positive inputs and no
division by zero arises.  On 4-D shapes the assignment
`spectral_density[0, 0] = 0` zeroes exactly the zero-frequency bin, and
with `alpha = 0` every other bin equals `k`.  On 5-D shapes the same
assignment zeroes the whole `[0, 0, :]` row — every x-frequency at
`(t_freq = 0, y_freq = 0)`, not just the zero-frequency bin — and with
`alpha = 0` the bins outside that row equal `k`.  `hpow1` states the float
`pow` identity `q ** 0 = 1`; `hpows` its positivity on positive bases. -/
theorem c4_spectral_density (sqrtQ : ℚ → ℚ) (powQ : ℚ → ℚ → ℚ)
    (k alpha scale : ℚ) (t h w ty y x : ℕ)
    (hpow1 : ∀ q, powQ q 0 = 1)
    (hpows : ∀ q, 0 < q → 0 < powQ q (alpha * scale)) :
    (1 / 10 ^ 10 : ℚ) ≤ freqGrid2 sqrtQ h w y x ∧
    powQ (freqGrid2 sqrtQ h w y x) (alpha * scale) ≠ 0 ∧
    spectralDensity2 sqrtQ powQ k alpha scale h w 0 0 = 0 ∧
    (¬(y = 0 ∧ x = 0) →
      spectralDensity2 sqrtQ powQ k alpha scale h w y x
        = k / powQ (freqGrid2 sqrtQ h w y x) (alpha * scale)) ∧
    (¬(y = 0 ∧ x = 0) → spectralDensity2 sqrtQ powQ k 0 scale h w y x = k) ∧
    spectralDensity3 sqrtQ powQ k alpha scale t h w 0 0 x = 0 ∧
    (¬(ty = 0 ∧ y = 0) →
      spectralDensity3 sqrtQ powQ k 0 scale t h w ty y x = k) := by
  have hfreq : (1 / 10 ^ 10 : ℚ) ≤ freqGrid2 sqrtQ h w y x := le_max_right _ _
  have hpos : (0 : ℚ) < freqGrid2 sqrtQ h w y x :=
    lt_of_lt_of_le (by norm_num) hfreq
  refine ⟨hfreq, ne_of_gt (hpows _ hpos), by simp [spectralDensity2], ?_, ?_,
    by simp [spectralDensity3], ?_⟩
  · intro hyx
    simp [spectralDensity2, hyx]
  · intro hyx
    simp [spectralDensity2, hyx, zero_mul, hpow1]
  · intro htyy
    simp [spectralDensity3, htyy, zero_mul, hpow1]

/-- C4 (counterexample): on a 5-D shape with `t = h = w = 2`, `alpha = 0`
and `k = 1`, the bin `(0, 0, 1)` has nonzero frequency (its x-frequency is
1) yet its density is 0 rather than `k`: the assignment
`spectral_density[0, 0] = 0` zeroes the entire `[0, 0, :]` row of the 3-D
density tensor.  The instantiated `powQ` satisfies `powQ q 0 = 1` exactly
as the float `pow` does. -/
theorem c4_counterexample :
    spectralDensity3 (fun _ => 0) (fun _ _ => 1) 1 0 1 2 2 2 0 0 1 = 0 ∧
    ((0 : ℕ), (0 : ℕ), (1 : ℕ)) ≠ ((0 : ℕ), (0 : ℕ), (0 : ℕ)) ∧
    (0 : ℚ) ≠ 1 := by
  refine ⟨rfl, by decide, by norm_num⟩

theorem c4_witness :
    (∀ q : ℚ, (fun _ _ : ℚ => (1 : ℚ)) q 0 = 1) ∧
    spectralDensity2 (fun _ => 0) (fun _ _ => 1) 5 0 (1 / 10) 4 4 1 3 = 5 ∧
    spectralDensity3 (fun _ => 0) (fun _ _ => 1) 5 0 (1 / 10) 4 4 4 0 0 3 = 0 := by
  have h := c4_spectral_density (fun _ => 0) (fun _ _ => 1) 5 0 (1 / 10) 4 4 4 0 1 3
    (fun q => rfl) (fun q hq => one_pos)
  exact ⟨fun q => rfl, h.2.2.2.2.1 (by simp), h.2.2.2.2.2.1⟩

theorem perlinAngle_shift (u : ℕ → ℚ) (d o gh gw ch : ℕ) :
    perlinAngle (fun n => u (d + n)) o gh gw ch
      = perlinAngle u (d + o) gh gw ch := by
  funext gy gx
  simp only [perlinAngle]
  exact congrArg u (by ring)

/-- C6 (amended): on a 5-D (spatiotemporal) shape the Perlin generator adds
a freshly drawn pair of 2-D Perlin octaves to each time slice — the fields
are drawn inside the `for tt in range(t)` loop from the advancing uniform
stream, so slice `tt`'s component equals slice 0's component computed on
the stream shifted by `2·tt` angle-grid blocks and in general varies
across the time axis.  Within one slice the same component is broadcast
identically over the batch axis (first conjunct: the value added on top of
the per-element base Gaussian draw does not depend on the batch index). -/
theorem c6_perlin_time_slices (cosQ sinQ : ℚ → ℚ) (gauss u : ℕ → ℚ)
    (c t h w bi ch tt py px : ℕ) :
    perlinCall5DPre cosQ sinQ gauss u c t h w bi ch tt py px
      = gauss (bi * (c * (t * (h * w))) + ch * (t * (h * w)) + tt * (h * w)
            + py * w + px) / 2
        + perlinSliceAdded cosQ sinQ u c h w tt ch py px ∧
    perlinSliceAdded cosQ sinQ u c h w tt ch py px
      = perlinSliceAdded cosQ sinQ
          (fun n => u (2 * tt * perlinDrawCount c h w + n)) c h w 0 ch py px := by
  refine ⟨rfl, ?_⟩
  have e1 : 2 * tt * perlinDrawCount c h w + 2 * 0 * perlinDrawCount c h w
      = 2 * tt * perlinDrawCount c h w := by ring
  have e2 : 2 * tt * perlinDrawCount c h w + (2 * 0 + 1) * perlinDrawCount c h w
      = (2 * tt + 1) * perlinDrawCount c h w := by ring
  simp only [perlinSliceAdded, perlinNoisePixel]
  rw [perlinAngle_shift, perlinAngle_shift, e1, e2]

/-- C6 (counterexample): with `c = h = w = 1`, `t = 2`, gradient
primitives `cos = id`, `sin = 0`, and a uniform stream that is 8 at
position 0 and 0 elsewhere, the Perlin component added to time slice 0 is
1 while the component added to slice 1 is 0: the code does not add one
identical 2-D field to every time slice. -/
theorem c6_counterexample :
    perlinSliceAdded (fun q => q) (fun _ => 0)
        (fun n => if n = 0 then 8 else 0) 1 1 1 0 0 0 0 = 1 ∧
    perlinSliceAdded (fun q => q) (fun _ => 0)
        (fun n => if n = 0 then 8 else 0) 1 1 1 1 0 0 0 = 0 ∧
    (1 : ℚ) ≠ 0 := by
  refine ⟨?_, ?_, by norm_num⟩ <;>
    norm_num [perlinSliceAdded, perlinNoisePixel, perlinPixel, perlinAngle,
      perlinDrawCount, smoothStep, lerpQ, dot2]

theorem updateAttrs_not_mem {α : Type _} (st : String → Option α)
    (kwargs : List (String × Option α)) (n : String)
    (hn : n ∉ kwargs.map Prod.fst) :
    (updateAttrs st kwargs).1 n = st n := by
  induction kwargs generalizing st with
  | nil => rfl
  | cons kv rest ih =>
    rcases kv with ⟨k, v⟩
    simp only [List.map_cons, List.mem_cons] at hn
    push_neg at hn
    cases v with
    | none => exact ih st hn.2
    | some v1 =>
      show (updateAttrs (setattr st k v1) rest).1 n = st n
      rw [ih (setattr st k v1) hn.2, setattr, if_neg hn.1]

/-- C8: `update(**kwargs)` assigns every keyword whose value is not None
as generator state, a None-valued keyword leaves the previously
configured value unchanged, and the call returns the current values of
all named attributes, including the ones not updated.  `hkeys` is
Python's guarantee that the keyword names of a call are distinct. -/
theorem c8_update_semantics {α : Type _} (st : String → Option α)
    (kwargs : List (String × Option α))
    (hkeys : (kwargs.map Prod.fst).Nodup) :
    (∀ n v, (n, some v) ∈ kwargs → (updateAttrs st kwargs).1 n = some v) ∧
    (∀ n, (n, none) ∈ kwargs → (updateAttrs st kwargs).1 n = st n) ∧
    (updateAttrs st kwargs).2
      = kwargs.map (fun kv => (updateAttrs st kwargs).1 kv.1) := by
  induction kwargs generalizing st with
  | nil => exact ⟨by simp, by simp, rfl⟩
  | cons kv rest ih =>
    rcases kv with ⟨k, v⟩
    simp only [List.map_cons, List.nodup_cons] at hkeys
    have hk : k ∉ rest.map Prod.fst := hkeys.1
    have hrest := hkeys.2
    cases v with
    | none =>
      obtain ⟨ih1, ih2, ih3⟩ := ih st hrest
      refine ⟨?_, ?_, ?_⟩
      · intro n v1 hmem
        rcases List.mem_cons.mp hmem with heq | hmem2
        · injection heq with hn hv
          exact Option.noConfusion hv
        · exact ih1 n v1 hmem2
      · intro n hmem
        rcases List.mem_cons.mp hmem with heq | hmem2
        · injection heq with hn hv
          rw [hn]
          exact updateAttrs_not_mem st rest k hk
        · exact ih2 n hmem2
      · show st k :: (updateAttrs st rest).2
          = (updateAttrs st rest).1 k
              :: rest.map (fun kv => (updateAttrs st rest).1 kv.1)
        rw [ih3, updateAttrs_not_mem st rest k hk]
    | some v1 =>
      obtain ⟨ih1, ih2, ih3⟩ := ih (setattr st k v1) hrest
      refine ⟨?_, ?_, ?_⟩
      · intro n v2 hmem
        rcases List.mem_cons.mp hmem with heq | hmem2
        · injection heq with hn hv
          injection hv with hv2
          rw [hn, hv2]
          show (updateAttrs (setattr st k v1) rest).1 k = some v1
          rw [updateAttrs_not_mem (setattr st k v1) rest k hk, setattr, if_pos rfl]
        · exact ih1 n v2 hmem2
      · intro n hmem
        rcases List.mem_cons.mp hmem with heq | hmem2
        · injection heq with hn hv
          exact Option.noConfusion hv
        · have hne : n ≠ k := by
            intro h
            rw [h] at hmem2
            exact hk (List.mem_map.mpr ⟨(k, none), hmem2, rfl⟩)
          show (updateAttrs (setattr st k v1) rest).1 n = st n
          rw [ih2 n hmem2, setattr, if_neg hne]
      · show setattr st k v1 k :: (updateAttrs (setattr st k v1) rest).2
          = (updateAttrs (setattr st k v1) rest).1 k
              :: rest.map (fun kv => (updateAttrs (setattr st k v1) rest).1 kv.1)
        rw [ih3, updateAttrs_not_mem (setattr st k v1) rest k hk]

theorem c8_nodup_keys :
    (([("alpha", some (1 : ℤ)), ("k", (none : Option ℤ))]).map Prod.fst).Nodup := by
  simp

theorem c8_witness :
    ((([("alpha", some (1 : ℤ)), ("k", (none : Option ℤ))]).map Prod.fst).Nodup) ∧
    (updateAttrs updateTestState [("alpha", some 1), ("k", none)]).1 "alpha"
      = some 1 ∧
    (updateAttrs updateTestState [("alpha", some 1), ("k", none)]).1 "k"
      = updateTestState "k" ∧
    (updateAttrs updateTestState [("alpha", some 1), ("k", none)]).2
      = [("alpha", some (1 : ℤ)), ("k", none)].map
          (fun kv => (updateAttrs updateTestState
            [("alpha", some 1), ("k", none)]).1 kv.1) := by
  have h := c8_update_semantics updateTestState
    [("alpha", some 1), ("k", none)] c8_nodup_keys
  exact ⟨c8_nodup_keys, h.1 "alpha" 1 (by simp), h.2.1 "k" (by simp), h.2.2⟩

theorem filterMap_if_mem {β : Type _} (l u : List ℕ) (g : ℕ → β) :
    (l.filterMap fun i => if i ∈ u then some (g i) else none)
      = (l.filter (fun i => i ∈ u)).map g := by
  induction l with
  | nil => rfl
  | cons a t ih =>
    by_cases h : a ∈ u
    · simp [List.filterMap_cons, List.filter_cons, h, ih]
    · simp [List.filterMap_cons, List.filter_cons, h, ih]

theorem range_filter_mem_npUnique (inds : List ℕ) :
    ((List.range (inds.foldr max 0 + 1)).filter (fun v => v ∈ npUnique inds))
      = npUnique inds := by
  unfold npUnique
  apply List.filter_congr
  intro x hx
  simp [List.mem_filter, hx]

theorem le_foldr_max (l : List ℕ) (v : ℕ) (hv : v ∈ l) : v ≤ l.foldr max 0 := by
  induction l with
  | nil => cases hv
  | cons a t ih =>
    rcases List.mem_cons.mp hv with rfl | h
    · exact le_max_left _ _
    · exact le_trans (ih h) (le_max_right _ _)

theorem nthD_map_listIndexOf {β : Type _} (u : List ℕ) (g : ℕ → β) (v : ℕ)
    (hv : v ∈ u) (d : β) :
    nthD d (u.map g) (listIndexOf v u) = g v := by
  induction u with
  | nil => cases hv
  | cons a t ih =>
    rw [List.map_cons, listIndexOf]
    by_cases h : a = v
    · rw [if_pos h, h]
      rfl
    · rw [if_neg h]
      have hv2 : v ∈ t := by
        rcases List.mem_cons.mp hv with heq | hmem
        · exact absurd heq.symm h
        · exact hmem
      show nthD d (t.map g) (listIndexOf v t) = g v
      exact ih hv2

theorem prepareNoiseIndexed_fields {β : Type _} (gen : ℕ → β) (inds : List ℕ) :
    (prepareNoiseIndexed gen inds).fields = inds.map gen := by
  have hnoises : ((List.range (inds.foldr max 0 + 1)).filterMap fun i =>
      if i ∈ npUnique inds then some (gen i) else none)
        = (npUnique inds).map gen := by
    rw [filterMap_if_mem, range_filter_mem_npUnique]
  show ((npInverse inds).map fun j =>
      nthD (gen 0) ((List.range (inds.foldr max 0 + 1)).filterMap fun i =>
        if i ∈ npUnique inds then some (gen i) else none) j) = inds.map gen
  rw [hnoises, npInverse, List.map_map]
  refine List.map_congr_left ?_
  intro v hv
  simp only [Function.comp]
  apply nthD_map_listIndexOf
  unfold npUnique
  rw [List.mem_filter]
  refine ⟨List.mem_range.mpr (Nat.lt_succ_of_le (le_foldr_max inds v hv)), ?_⟩
  simp [hv]

/-- C2 (amended): given an index list, `prepare_noise` deduplicates the
indices but invokes the generator once per integer from 0 through the
maximum index (`invocations = max + 1`, discarding draws for integers not
among the indices), so the field kept for unique index `u` is the one
from invocation `u`; the batch is then reassembled by repeating fields
according to the original index-to-unique mapping, giving `inds.map gen`.
In particular `sample_indices = [0, 0, 1]` with a (1,4,8,8) reference
latent (one batch item per call) yields a 3-item batch whose items 0 and
1 are bit-identical — the same tensor object repeated — while item 2
differs whenever invocations 0 and 1 produce different fields. -/
theorem c2_indexed_reassembly {β γ : Type _} (gen : ℕ → β) (f : ℕ → γ)
    (inds : List ℕ) (hne : inds ≠ []) (hf : f 0 ≠ f 1) :
    (prepareNoiseIndexed gen inds).fields = inds.map gen ∧
    (prepareNoiseIndexed gen inds).invocations = inds.foldr max 0 + 1 ∧
    prepareNoiseIndexedCat (fun i => [f i]) [0, 0, 1] = [f 0, f 0, f 1] ∧
    nthD (f 1) (prepareNoiseIndexedCat (fun i => [f i]) [0, 0, 1]) 0
      = nthD (f 1) (prepareNoiseIndexedCat (fun i => [f i]) [0, 0, 1]) 1 ∧
    nthD (f 0) (prepareNoiseIndexedCat (fun i => [f i]) [0, 0, 1]) 2
      ≠ nthD (f 1) (prepareNoiseIndexedCat (fun i => [f i]) [0, 0, 1]) 0 := by
  have hcat : prepareNoiseIndexedCat (fun i => [f i]) [0, 0, 1]
      = [f 0, f 0, f 1] := by
    rw [prepareNoiseIndexedCat, prepareNoiseIndexed_fields]
    rfl
  refine ⟨prepareNoiseIndexed_fields gen inds, rfl, hcat, ?_, ?_⟩
  · rw [hcat]
    rfl
  · rw [hcat]
    exact fun h => hf (Eq.symm h)

/-- C2 (counterexample): with `sample_indices = [1]` there is exactly one
unique index, but the loop `for i in range(unique_inds[-1] + 1)` invokes
the generator twice (for i = 0 and i = 1), so "the generator is invoked
exactly once per unique index" is false. -/
theorem c2_counterexample :
    (prepareNoiseIndexed (fun i => i) [1]).invocations = 2 ∧
    (npUnique [1]).length = 1 ∧ (2 : ℕ) ≠ 1 := by
  refine ⟨rfl, by decide, by decide⟩

theorem c2_witness :
    (([0, 0, 1] : List ℕ) ≠ []) ∧ ((fun i : ℕ => i) 0 ≠ (fun i : ℕ => i) 1) ∧
    (prepareNoiseIndexed (fun i : ℕ => i) [0, 0, 1]).fields = [0, 0, 1] ∧
    prepareNoiseIndexedCat (fun i : ℕ => [i]) [0, 0, 1] = [0, 0, 1] := by
  have h := c2_indexed_reassembly (fun i : ℕ => i) (fun i : ℕ => i) [0, 0, 1]
    (by decide) (by decide)
  exact ⟨by decide, by decide, h.1, h.2.2.1⟩

theorem flatten_length_const {γ : Type _} (b : ℕ) (l : List (List γ))
    (h : ∀ e ∈ l, e.length = b) : l.flatten.length = l.length * b := by
  induction l with
  | nil => simp
  | cons a t ih =>
    rw [List.flatten_cons, List.length_append, h a (by simp),
      ih (fun e he => h e (by simp [he])), List.length_cons]
    ring

/-- C10: in `prepare_noise`'s indexed path the `size=[1] + …`, `dtype`,
`layout` and `device` keyword arguments passed at call time are absorbed
into the concrete generator's `**kwargs` and ignored
(`gaussianCallKwargs` gives the same result for any two kwargs lists), so
each per-index invocation produces a field of the instance's configured
full shape — `b` batch items where `b` is the reference latent's batch
size, not the requested single sample.  The reassembled
`torch.cat(..., axis=0)` batch therefore has `len(indices) * b` items,
which is one sample per index exactly when `b = 1`. -/
theorem c10_indexed_batch_shape {γ : Type _} (item : ℕ → ℕ → γ) (b : ℕ)
    (inds : List ℕ) (sqrtQ : ℚ → ℚ) (draws : List ℚ) (lastSeed : ℤ)
    (kw kw' : List (String × ℕ)) (hne : inds ≠ []) :
    gaussianCallKwargs sqrtQ draws lastSeed kw
      = gaussianCallKwargs sqrtQ draws lastSeed kw' ∧
    (prepareNoiseIndexedCat (fun i => (List.range b).map (item i)) inds).length
      = inds.length * b ∧
    ((prepareNoiseIndexedCat (fun i => (List.range b).map (item i)) inds).length
      = inds.length ↔ b = 1) := by
  have hlen : (prepareNoiseIndexedCat (fun i => (List.range b).map (item i))
      inds).length = inds.length * b := by
    rw [prepareNoiseIndexedCat, prepareNoiseIndexed_fields]
    rw [flatten_length_const b]
    · rw [List.length_map]
    · intro e he
      rcases List.mem_map.mp he with ⟨i, _, rfl⟩
      rw [List.length_map, List.length_range]
  refine ⟨rfl, hlen, ?_⟩
  rw [hlen]
  exact Nat.mul_right_eq_self_iff (List.length_pos.mpr hne)

theorem c10_witness :
    (([0, 1] : List ℕ) ≠ []) ∧
    (prepareNoiseIndexedCat
      (fun i => (List.range 2).map (fun j => (i, j))) [0, 1]).length = 4 ∧
    ((prepareNoiseIndexedCat
      (fun i => (List.range 2).map (fun j => (i, j))) [0, 1]).length = 2
        ↔ (2 : ℕ) = 1) := by
  have h := c10_indexed_batch_shape (fun i j => (i, j)) 2 [0, 1] (fun _ => 1)
    [] 0 [] [] (by decide)
  exact ⟨by decide, h.2.1, h.2.2⟩

end NoiseClasses
